import Mathlib

/-!
Verification of the INF binary-tree decoder and text serializer
(`decompress_inf.py`): a shallow embedding of the two dialect decoders,
the string-table loaders, the dialect classifier, and the value
formatters, together with theorems about the properties the
specification states.

Conventions of the embedding:
* A byte buffer is a `List ℕ` (each entry a byte value `< 256`).
* Fallible reads return `Except Err`; a Python exception (IndexError,
  struct.error, ValueError) corresponds to an `.error` result, so an
  aborted decode returns no partial output, exactly as an uncaught
  Python exception does.
* Machine integers read from the stream are `ℕ` (u8/u32/u64 values are
  nonnegative and bounded, so no wrap-around arithmetic occurs in the
  source paths modelled here).
* A finite IEEE-754 double is represented by its exact rational value;
  bit patterns with exponent 2047 (inf/NaN) are `none` under
  `f64ToRat`, mirroring that Python's `int(v)` raises on them.
* Decoded text strings are Lean `String`s; the structural parsers take
  the loaded tables as explicit parameters (the Python classes hold
  them as instance state loaded by the constructor).  The byte-level
  table loaders are modelled separately with entries kept as raw byte
  lists, since no claim inspects the UTF-8/UTF-16 transcoding itself.
* Emitted output is a `List Line`: structural lines (`[Name]`, braces,
  blank separators, the synthesized `_RefID` line) and property lines
  are kept structured, because the final rendering of a non-integral
  double goes through Python's shortest-round-trip float `repr`, which
  is float-semantics outside this rational embedding.  `Rendered.txt s`
  is a fully rendered value text, `Rendered.intForm n` stands for
  `str(int(v))`, and `Rendered.floatForm q` stands for `str(v)` on the
  float with exact value `q`.
-/

deriving instance DecidableEq for Except

/-- Errors of one decode pass.  `truncated` models a Python
IndexError/struct.error on a read past the end of the buffer,
`unknownType` is the explicit `Unknown property type {t} at {pos}`
ValueError (carrying the byte offset of the offending tag),
`badNumber` models `int(v)` raising on a non-finite double,
`invalidOffset` is the explicit `Invalid string table offset` ValueError,
and `fuel` is an artifact of the fuel-bounded recursion (never produced
for sufficiently large fuel). -/
inductive Err where
  | truncated (pos : ℕ)
  | unknownType (t : ℕ) (pos : ℕ)
  | badNumber (pos : ℕ)
  | invalidOffset (sto : ℕ)
  | fuel
  deriving DecidableEq, Repr

/-- Read one byte at `pos` (Python `self.data[self.pos]`). -/
def rdU8 (data : List ℕ) (pos : ℕ) : Except Err (ℕ × ℕ) :=
  match data.get? pos with
  | some b => .ok (b, pos + 1)
  | none => .error (.truncated pos)

/-- Read a 4-byte little-endian unsigned integer at `pos`
(Python `struct.unpack('<I', self.data[self.pos:self.pos+4])`). -/
def rdU32 (data : List ℕ) (pos : ℕ) : Except Err (ℕ × ℕ) :=
  match data.get? pos, data.get? (pos + 1), data.get? (pos + 2), data.get? (pos + 3) with
  | some b0, some b1, some b2, some b3 =>
      .ok (b0 + 256 * (b1 + 256 * (b2 + 256 * b3)), pos + 4)
  | _, _, _, _ => .error (.truncated pos)

/-- Read an 8-byte little-endian bit pattern at `pos` (the raw bits of
`struct.unpack('<d', ...)`). -/
def rdU64 (data : List ℕ) (pos : ℕ) : Except Err (ℕ × ℕ) :=
  match rdU32 data pos, rdU32 data (pos + 4) with
  | .ok (lo, _), .ok (hi, _) => .ok (lo + 2 ^ 32 * hi, pos + 8)
  | .error e, _ => .error e
  | _, .error e => .error e

/-- Exact rational value of a finite IEEE-754 binary64 bit pattern;
`none` when the exponent field is 2047 (infinity / NaN), on which the
formatter's `int(v)` would raise in Python. -/
def f64ToRat (bits : ℕ) : Option ℚ :=
  let sign : ℕ := bits / 2 ^ 63 % 2
  let expo : ℕ := bits / 2 ^ 52 % 2 ^ 11
  let mant : ℕ := bits % 2 ^ 52
  if expo = 2047 then none
  else
    let mag : ℚ :=
      if expo = 0 then (mant : ℚ) / 2 ^ 1074
      else ((2 ^ 52 + mant : ℕ) : ℚ) * 2 ^ expo / 2 ^ 1075
    some (if sign = 1 then -mag else mag)

/-- Index of the first zero byte at position `≥ start` (helper for
`findNull`), carrying the absolute index alongside. -/
def findNullAux : List ℕ → ℕ → Option ℕ
  | [], _ => none
  | b :: rest, i => if b = 0 then some i else findNullAux rest (i + 1)

/-- Python `data.find(b'\x00', pos)`: index of the first zero byte at
position `≥ pos`, `none` when there is none (Python returns `-1`). -/
def findNull (data : List ℕ) (pos : ℕ) : Option ℕ :=
  findNullAux (data.drop pos) pos

/-- Python slice `data[a:b]` (with `a ≤ b`; clamped at the ends). -/
def byteSlice (data : List ℕ) (a b : ℕ) : List ℕ :=
  (data.drop a).take (b - a)

/-- Does `pat` occur as a prefix of `s`?  (byte-list version). -/
def startsWithBytes : List ℕ → List ℕ → Bool
  | [], _ => true
  | _ :: _, [] => false
  | p :: ps, b :: bs => p == b && startsWithBytes ps bs

/-- Does `pat` occur as a contiguous substring of `s`?  Models Python's
`pat in s` on byte strings; since the pattern used in the source
(`' : '`, bytes `[32, 58, 32]`) is pure ASCII and `errors='replace'`
UTF-8 decoding maps ASCII bytes to themselves and never produces ASCII
characters from invalid sequences, substring search on the raw bytes
coincides with Python's substring test on the decoded text. -/
def containsBytes (pat : List ℕ) : List ℕ → Bool
  | [] => startsWithBytes pat []
  | b :: bs => startsWithBytes pat (b :: bs) || containsBytes pat bs

/-- Python `c in s` on text: membership of a character in a string
(computable over the character list). -/
def strContains (s : String) (c : Char) : Bool :=
  s.data.contains c

/-- Character-list worker for `escapeQuotes`. -/
def escAux : List Char → List Char
  | [] => []
  | c :: cs => if c = '"' then '\\' :: '"' :: escAux cs else c :: escAux cs

/-- Python `s.replace('"', '\\"')`: each double-quote character is
replaced by a backslash followed by the quote (single-character
pattern, so occurrences cannot overlap). -/
def escapeQuotes (s : String) : String :=
  ⟨escAux s.data⟩

/-- A rendered property value.  `txt` is fully rendered text,
`intForm n` stands for Python `str(int(v))` (an integer rendering with
no decimal point), `floatForm q` stands for Python `str(v)` on the
float of exact value `q` (the default float rendering). -/
inductive Rendered where
  | txt (s : String)
  | intForm (n : ℤ)
  | floatForm (q : ℚ)
  deriving DecidableEq, Repr

/-- One output line of the object-dialect serializer.  `raw s` is a
line emitted literally; `prop ind name vals` is the property line
`'\t' * ind ++ '\t' ++ name ++ " = " ++ joined vals`.  The synthesized
`_RefID` line is `prop ind "_RefID" [.intForm n]`, whose rendering is
identical to the source's f-string. -/
inductive Line where
  | raw (s : String)
  | prop (ind : ℕ) (name : String) (vals : List Rendered)
  deriving DecidableEq, Repr

/-- The property lines among a list of emitted lines. -/
def propLines (L : List Line) : List Line :=
  L.filter fun l => match l with
    | .prop _ _ _ => true
    | .raw _ => false

/-- `'\t' * n`. -/
def tabs (n : ℕ) : String :=
  String.mk (List.replicate n '\t')

/-- Mutable parse state of `BinaryInfParser`: the cursor `pos` and the
synthesized ref-id counter `ctr` (`refid_counter`, starting at 0). -/
structure PSt where
  pos : ℕ
  ctr : ℕ
  deriving DecidableEq, Repr

namespace BinaryInfParser

/-- `BinaryInfParser.get_str`: bounds-checked string-table lookup with a
placeholder for out-of-range indices (never fails).  The Python guard
`0 <= idx` is always satisfied because `idx` is read as an unsigned
u32. -/
def get_str (strings : List String) (idx : ℕ) : String :=
  if h : idx < strings.length then strings.get ⟨idx, h⟩
  else "<string_" ++ toString idx ++ ">"

/-- `BinaryInfParser.get_wstr`: bounds-checked wide-string-table lookup
with a placeholder for out-of-range indices (never fails). -/
def get_wstr (wstrings : List String) (idx : ℕ) : String :=
  if h : idx < wstrings.length then wstrings.get ⟨idx, h⟩
  else "<wstring_" ++ toString idx ++ ">"

/-- `BinaryInfParser.fmt_double`: an integral value of magnitude below
`1e15` is rendered as `str(int(v))` (no decimal point), anything else
falls to Python's default `str(v)`.  `v == int(v)` on a finite double
is exact integrality, i.e. denominator 1, and `abs(v) < 1e15` is an
exact comparison since both sides are exactly representable. -/
def fmt_double (v : ℚ) : Rendered :=
  if v.den = 1 ∧ |v| < 10 ^ 15 then .intForm v.num else .floatForm v

/-- `BinaryInfParser.needs_quotes`: the chain of checks falls through to
`return True  # Quote all strings for safety`, so every string is
quoted (the `'.' in s` branch is a `pass`). -/
def needs_quotes (s : String) : Bool :=
  if s = "" then true
  else if strContains s ' ' || strContains s '/' || strContains s '\\' ||
          strContains s '"' || strContains s '=' then true
  else true

/-- `BinaryInfParser.fmt_string`: quote the value when `needs_quotes`
holds (always), backslash-escaping embedded double quotes. -/
def fmt_string (s : String) : String :=
  if needs_quotes s then "\"" ++ escapeQuotes s ++ "\"" else s

/-- The string tables the parser instance holds alongside the raw
buffer (`self.data`, `self.strings`, `self.wstrings`). -/
structure Env where
  data : List ℕ
  strings : List String
  wstrings : List String

/-- The value loop of `BinaryInfParser.parse_property`: `n` values,
each a type byte followed by a type-dependent payload.  Type 0 is a
string index, type 1 an IEEE-754 double formatted immediately via
`fmt_double`, type 2 a wide-string index rendered as `L"..."`, type 3 a
blob whose payload is skipped (`self.pos += blob_len`, no bounds
check) and rendered as a length placeholder.  Any other tag raises
`Unknown property type {t} at {pos}` where `pos` (Python
`self.pos - 1`) is the offset of the tag byte itself. -/
def parse_values (env : Env) : ℕ → ℕ → Except Err (List Rendered × ℕ)
  | 0, pos => .ok ([], pos)
  | n + 1, pos => do
    let (ptype, pos1) ← rdU8 env.data pos
    if ptype = 0 then do
      let (idx, pos2) ← rdU32 env.data pos1
      let (rest, pos3) ← parse_values env n pos2
      .ok (.txt (fmt_string (get_str env.strings idx)) :: rest, pos3)
    else if ptype = 1 then do
      let (bits, pos2) ← rdU64 env.data pos1
      match f64ToRat bits with
      | some v => do
        let (rest, pos3) ← parse_values env n pos2
        .ok (fmt_double v :: rest, pos3)
      | none => .error (.badNumber pos1)
    else if ptype = 2 then do
      let (idx, pos2) ← rdU32 env.data pos1
      let (rest, pos3) ← parse_values env n pos2
      .ok (.txt ("L\"" ++ get_wstr env.wstrings idx ++ "\"") :: rest, pos3)
    else if ptype = 3 then do
      let (blob_len, pos2) ← rdU32 env.data pos1
      let (rest, pos3) ← parse_values env n (pos2 + blob_len)
      .ok (.txt ("<blob:" ++ toString blob_len ++ ">") :: rest, pos3)
    else
      .error (.unknownType ptype pos)

/-- `BinaryInfParser.parse_property`: name index, value count byte,
then the values.  A property whose (resolved) name is exactly `_RefID`
is fully consumed but yields `none` (omitted from the emitted
properties); any other property yields its name and rendered values. -/
def parse_property (env : Env) (pos : ℕ) :
    Except Err (Option (String × List Rendered) × ℕ) := do
  let (name_idx, pos1) ← rdU32 env.data pos
  let prop_name := get_str env.strings name_idx
  let (count, pos2) ← rdU8 env.data pos1
  let (vals, pos3) ← parse_values env count pos2
  if prop_name = "_RefID" then .ok (none, pos3)
  else .ok (some (prop_name, vals), pos3)

/-- The property loop shared by the object bodies: parse `n`
properties, emitting a `Line.prop` for each one that is not filtered
out (`_RefID`). -/
def parse_props_loop (env : Env) : ℕ → ℕ → ℕ → Except Err (List Line × ℕ)
  | 0, pos, _ => .ok ([], pos)
  | n + 1, pos, ind => do
    let (r, pos1) ← parse_property env pos
    let (rest, pos2) ← parse_props_loop env n pos1 ind
    match r with
    | some (name, vals) => .ok (.prop ind name vals :: rest, pos2)
    | none => .ok (rest, pos2)

mutual

/-- `BinaryInfParser.parse_child_object`: explicit class index, then
property and child counts, the synthesized `_RefID` line first, the
properties, a blank separator when the object is nonempty, the child
sections (at one deeper indent), and the closing brace.  Also returns
the ref-ids synthesized in emission order and the final state. -/
def parse_child_object (fuel : ℕ) (env : Env) (st : PSt) (ind : ℕ) :
    Except Err (List Line × List ℕ × PSt) :=
  match fuel with
  | 0 => .error .fuel
  | f + 1 => do
    let (class_idx, p1) ← rdU32 env.data st.pos
    let class_name := get_str env.strings class_idx
    let (prop_count, p2) ← rdU32 env.data p1
    let (child_count, p3) ← rdU32 env.data p2
    let refid := st.ctr + 1
    let (propLs, p4) ← parse_props_loop env prop_count p3 ind
    let (secLs, refids, st') ← parse_sections_loop f env child_count ⟨p4, refid⟩ (ind + 1)
    .ok ([.raw (tabs ind ++ "[" ++ class_name ++ "]"),
          .raw (tabs ind ++ "\x7b"),
          .prop ind "_RefID" [.intForm (refid : ℤ)]] ++ propLs ++
          (if 0 < prop_count ∨ 0 < child_count then [.raw ""] else []) ++
          secLs ++ [.raw (tabs ind ++ "\x7d")],
         refid :: refids, st')
termination_by structural fuel

/-- `BinaryInfParser.parse_section`: name index, then the u32
discriminator (`second_field`).  Zero selects the container shape, any
nonzero value selects the inline-object shape with the discriminator
reinterpreted as the property count.  The resolved name is only
carried along for display. -/
def parse_section (fuel : ℕ) (env : Env) (st : PSt) (ind : ℕ) :
    Except Err (List Line × List ℕ × PSt) :=
  match fuel with
  | 0 => .error .fuel
  | f + 1 => do
    let (name_idx, p1) ← rdU32 env.data st.pos
    let section_name := get_str env.strings name_idx
    let (second_field, p2) ← rdU32 env.data p1
    if second_field = 0 then
      parse_section_container f env ⟨p2, st.ctr⟩ ind section_name
    else
      parse_section_inline f env ⟨p2, st.ctr⟩ ind section_name second_field
termination_by structural fuel

/-- Container branch of `parse_section`: object count, header lines, a
blank line at the start of the section, the child objects (one deeper),
and the closing brace. -/
def parse_section_container (fuel : ℕ) (env : Env) (st : PSt) (ind : ℕ)
    (name : String) : Except Err (List Line × List ℕ × PSt) :=
  match fuel with
  | 0 => .error .fuel
  | f + 1 => do
    let (obj_count, p1) ← rdU32 env.data st.pos
    let (objLs, refids, st') ← parse_objects_loop f env obj_count ⟨p1, st.ctr⟩ (ind + 1)
    .ok ([.raw (tabs ind ++ "[" ++ name ++ "]"),
          .raw (tabs ind ++ "\x7b"),
          .raw ""] ++ objLs ++ [.raw (tabs ind ++ "\x7d")],
         refids, st')
termination_by structural fuel

/-- Inline-object branch of `parse_section`: the discriminator is the
property count, then a child count and an object body — but no
synthesized `_RefID` line and no ref-id allocation of its own; the
blank separator between properties and children requires both to be
present. -/
def parse_section_inline (fuel : ℕ) (env : Env) (st : PSt) (ind : ℕ)
    (name : String) (prop_count : ℕ) : Except Err (List Line × List ℕ × PSt) :=
  match fuel with
  | 0 => .error .fuel
  | f + 1 => do
    let (child_count, p1) ← rdU32 env.data st.pos
    let (propLs, p2) ← parse_props_loop env prop_count p1 ind
    let (secLs, refids, st') ← parse_sections_loop f env child_count ⟨p2, st.ctr⟩ (ind + 1)
    .ok ([.raw (tabs ind ++ "[" ++ name ++ "]"),
          .raw (tabs ind ++ "\x7b"),
          .raw ""] ++ propLs ++
          (if 0 < prop_count ∧ 0 < child_count then [.raw ""] else []) ++
          secLs ++ [.raw (tabs ind ++ "\x7d")],
         refids, st')
termination_by structural fuel

/-- The child-object loop of a container section. -/
def parse_objects_loop (fuel : ℕ) (env : Env) (n : ℕ) (st : PSt) (ind : ℕ) :
    Except Err (List Line × List ℕ × PSt) :=
  match fuel, n with
  | _, 0 => .ok ([], [], st)
  | 0, _ + 1 => .error .fuel
  | f + 1, n + 1 => do
    let (ls, rs, st1) ← parse_child_object f env st ind
    let (ls2, rs2, st2) ← parse_objects_loop f env n st1 ind
    .ok (ls ++ ls2, rs ++ rs2, st2)
termination_by structural fuel

/-- The child-section loop of an object body. -/
def parse_sections_loop (fuel : ℕ) (env : Env) (n : ℕ) (st : PSt) (ind : ℕ) :
    Except Err (List Line × List ℕ × PSt) :=
  match fuel, n with
  | _, 0 => .ok ([], [], st)
  | 0, _ + 1 => .error .fuel
  | f + 1, n + 1 => do
    let (ls, rs, st1) ← parse_section f env st ind
    let (ls2, rs2, st2) ← parse_sections_loop f env n st1 ind
    .ok (ls ++ ls2, rs ++ rs2, st2)

termination_by structural fuel
end

/-- `BinaryInfParser.parse_root_object`: like a child object but with
no class index (the class name is string-table entry 0). -/
def parse_root_object (fuel : ℕ) (env : Env) (st : PSt) (ind : ℕ) :
    Except Err (List Line × List ℕ × PSt) := do
  let (prop_count, p1) ← rdU32 env.data st.pos
  let (child_count, p2) ← rdU32 env.data p1
  let class_name := get_str env.strings 0
  let refid := st.ctr + 1
  let (propLs, p3) ← parse_props_loop env prop_count p2 ind
  let (secLs, refids, st') ← parse_sections_loop fuel env child_count ⟨p3, refid⟩ (ind + 1)
  .ok ([.raw (tabs ind ++ "[" ++ class_name ++ "]"),
        .raw (tabs ind ++ "\x7b"),
        .prop ind "_RefID" [.intForm (refid : ℤ)]] ++ propLs ++
        (if 0 < prop_count ∨ 0 < child_count then [.raw ""] else []) ++
        secLs ++ [.raw (tabs ind ++ "\x7d")],
       refid :: refids, st')

end BinaryInfParser

/-- The null-terminated-string reading loop shared verbatim by
`BinaryInfParser._load_string_tables` and
`SimpleInfParser._load_strings`: up to `n` entries, stopping early
(without failing) when no terminator is found before buffer end.
Entries are kept as their raw bytes; the Python source decodes them
with `errors='replace'`, which is total and never raises. -/
def read_strings_loop (data : List ℕ) : ℕ → ℕ → List (List ℕ) × ℕ
  | 0, pos => ([], pos)
  | n + 1, pos =>
    match findNull data pos with
    | none => ([], pos)
    | some e =>
      let (rest, p') := read_strings_loop data n (e + 1)
      (byteSlice data pos e :: rest, p')

/-- The wide-string reading loop of
`BinaryInfParser._load_string_tables`: up to `n` entries of a 4-byte
character count followed by `2 * char_count` bytes, stopping early
(without failing) whenever a bound is exceeded.  Entries are kept as
their raw UTF-16LE bytes; the Python source decodes them inside a
`try`, substituting a placeholder on failure, so this loop never
raises either way. -/
def read_wstrings_loop (data : List ℕ) : ℕ → ℕ → List (List ℕ) × ℕ
  | 0, pos => ([], pos)
  | n + 1, pos =>
    if data.length < pos + 4 then ([], pos)
    else
      match rdU32 data pos with
      | .error _ => ([], pos)
      | .ok (char_count, p1) =>
        if data.length < p1 + char_count * 2 then ([], pos)
        else
          let (rest, p') := read_wstrings_loop data n (p1 + char_count * 2)
          (byteSlice data p1 (p1 + char_count * 2) :: rest, p')

namespace BinaryInfParser

/-- `BinaryInfParser._load_string_tables`: read the 4-byte table offset
`sto` from buffer start and raise `Invalid string table offset` exactly
when `sto < 16` or `sto ≥ len(data)`; then the string count and the
strings, and — only when at least 8 bytes remain — the wide-string
block. -/
def load_string_tables (data : List ℕ) :
    Except Err (List (List ℕ) × List (List ℕ)) := do
  let (sto, _) ← rdU32 data 0
  if sto < 16 ∨ data.length ≤ sto then .error (.invalidOffset sto)
  else do
    let (str_count, p1) ← rdU32 data sto
    let (strs, p2) := read_strings_loop data str_count p1
    if p2 + 8 ≤ data.length then do
      let (wcount, p3) ← rdU32 data p2
      let (wstrs, _) := read_wstrings_loop data wcount p3
      .ok (strs, wstrs)
    else
      .ok (strs, [])

end BinaryInfParser

namespace SimpleInfParser

/-- `SimpleInfParser._load_strings`: read the table offset and then the
strings.  Unlike the object-dialect loader there is no range check on
the offset whatsoever; a short read simply raises `struct.error`
(modelled as `.truncated`). -/
def load_strings (data : List ℕ) : Except Err (List (List ℕ)) := do
  let (sto, _) ← rdU32 data 0
  let (str_count, p1) ← rdU32 data sto
  .ok (read_strings_loop data str_count p1).1

/-- `SimpleInfParser.get_str`: bounds-checked lookup with an
`<invalid:idx>` placeholder (never fails); the Python guard
`0 <= idx` is always satisfied for a u32 index. -/
def get_str (strings : List String) (idx : ℕ) : String :=
  if h : idx < strings.length then strings.get ⟨idx, h⟩
  else "<invalid:" ++ toString idx ++ ">"

/-- A simple-dialect property value as stored by the parse loop: a
resolved string, or the raw bit pattern of a double (formatted later by
`format_value`). -/
inductive SimpleVal where
  | s (v : String)
  | d (bits : ℕ)
  deriving DecidableEq, Repr

/-- One iteration body of the value loop in
`SimpleInfParser.parse_properties`: dispatch on the current type tag.
Tag 0 reads a u32 string index, tag 1 reads an 8-byte double, and any
other tag appends nothing and consumes nothing — the cursor stays
exactly where it was after the tag byte. -/
def parse_one_value (strings : List String) (data : List ℕ)
    (vtype pos : ℕ) : Except Err (Option SimpleVal × ℕ) :=
  if vtype = 0 then do
    let (vidx, p) ← rdU32 data pos
    .ok (some (.s (get_str strings vidx)), p)
  else if vtype = 1 then do
    let (bits, p) ← rdU64 data pos
    .ok (some (.d bits), p)
  else
    .ok (none, pos)

/-- The value loop of `SimpleInfParser.parse_properties`: the first
value uses the type tag read as part of the property header; before
each subsequent value a fresh type tag byte is read. -/
def parse_vals_loop (strings : List String) (data : List ℕ) :
    ℕ → ℕ → ℕ → Except Err (List SimpleVal × ℕ)
  | 0, _, pos => .ok ([], pos)
  | 1, vtype, pos => do
    let (v, p1) ← parse_one_value strings data vtype pos
    .ok (v.toList, p1)
  | n + 2, vtype, pos => do
    let (v, p1) ← parse_one_value strings data vtype pos
    let (vt2, p2) ← rdU8 data p1
    let (rest, p3) ← parse_vals_loop strings data (n + 1) vt2 p2
    .ok (v.toList ++ rest, p3)

/-- `SimpleInfParser.parse_properties`: `n` properties, each a u32 name
index, a value-count byte, one type byte (consumed even when the value
count is 0), and the values. -/
def parse_properties (strings : List String) (data : List ℕ) :
    ℕ → ℕ → Except Err (List (String × List SimpleVal) × ℕ)
  | 0, pos => .ok ([], pos)
  | n + 1, pos => do
    let (name_idx, p1) ← rdU32 data pos
    let (val_count, p2) ← rdU8 data p1
    let (vtype, p3) ← rdU8 data p2
    let (values, p4) ← parse_vals_loop strings data val_count vtype p3
    let (rest, p5) ← parse_properties strings data n p4
    .ok ((get_str strings name_idx, values) :: rest, p5)

/-- The numeric half of `SimpleInfParser.format_value`: an integral
value is rendered as `str(int(val))` with no decimal point — with no
magnitude bound, unlike the object dialect — and anything else falls to
Python's default `str(val)`. -/
def fmt_num (q : ℚ) : Rendered :=
  if q.den = 1 then .intForm q.num else .floatForm q

/-- `SimpleInfParser.format_value`: a string is quoted exactly when it
contains a space, slash, backslash or comma — with no escaping of any
embedded double quote — and bare otherwise; a double is formatted by
`fmt_num` (`int(val)` raises on a non-finite double, hence `none`). -/
def format_value : SimpleVal → Option Rendered
  | .s v =>
    some (.txt (if strContains v ' ' || strContains v '/' || strContains v '\\' ||
                   strContains v ',' then "\"" ++ v ++ "\"" else v))
  | .d bits => (f64ToRat bits).map fmt_num

/-- The section loop of `SimpleInfParser.parse` for sections 1 and up:
each has a u32 name index, property and (unused) child counts, and its
properties. -/
def parse_doc_loop (strings : List String) (data : List ℕ) :
    ℕ → ℕ → Except Err (List (String × List (String × List SimpleVal)) × ℕ)
  | 0, pos => .ok ([], pos)
  | n + 1, pos => do
    let (name_idx, p1) ← rdU32 data pos
    let (prop_count, p2) ← rdU32 data p1
    let (_child_count, p3) ← rdU32 data p2
    let (props, p4) ← parse_properties strings data prop_count p3
    let (rest, p5) ← parse_doc_loop strings data n p4
    .ok ((get_str strings name_idx, props) :: rest, p5)

/-- The structural content of `SimpleInfParser.parse`: the section
count at offset 8, then from offset 16 section 0 (named by string-table
entry 0, with no name-index field) and the remaining
`section_count - 1` sections.  The source formats each section to text
as it goes (via `format_value`); the section list is the tree the claims
speak about, and nothing here can fail except a truncated read. -/
def parse_doc (strings : List String) (data : List ℕ) :
    Except Err (List (String × List (String × List SimpleVal))) := do
  let (section_count, _) ← rdU32 data 8
  let (prop_count, p1) ← rdU32 data 16
  let (_child_count, p2) ← rdU32 data p1
  let (props, p3) ← parse_properties strings data prop_count p2
  let (rest, _) ← parse_doc_loop strings data (section_count - 1) p3
  .ok ((get_str strings 0, props) :: rest)

end SimpleInfParser

/-- `is_simple_format`: the dialect heuristic over the decompressed
buffer.  Buffers shorter than 24 bytes or whose string-table offset is
out of range classify as object-dialect (`false`) immediately; then a
section count `> 1` at offset 8 together with a zero at offset 20
selects the simple dialect; otherwise the string count and first
string-table entry are consulted — an empty table or an unterminated
first string classifies as object-dialect, a first entry containing
`" : "` classifies as object-dialect, and otherwise the count field
decides.  Reading the string count past the buffer end raises
`struct.error` in Python (the exception escapes the function), modelled
as `none`. -/
def is_simple_format (data : List ℕ) : Option Bool :=
  if data.length < 24 then some false
  else
    match rdU32 data 0 with
    | .error _ => none
    | .ok (sto, _) =>
      if sto < 16 ∨ data.length ≤ sto then some false
      else
        match rdU32 data 8, rdU32 data 20 with
        | .ok (v08, _), .ok (v14, _) =>
          if 1 < v08 ∧ v14 = 0 then some true
          else
            match rdU32 data sto with
            | .error _ => none
            | .ok (str_count, _) =>
              if str_count = 0 then some false
              else
                match findNull data (sto + 4) with
                | none => some false
                | some e =>
                  if containsBytes [32, 58, 32] (byteSlice data (sto + 4) e) then
                    some false
                  else some (decide (1 < v08))
        | _, _ => none

/-- Modelled from the spec: the dialect decision chain exactly as the
specification words it — "if the count field at offset 8 is > 1 and the
field at offset 20 is 0, classify as simple-dialect; else if the first
string contains the substring \" : \", classify as object-dialect; else
default to simple if the count field exceeds 1, otherwise object".
The spec names no other guard, so the first string-table entry is taken
to be the bytes from `sto + 4` up to the first null (empty when
unterminated), and `true` means simple-dialect.  This definition exists
only to be compared against `is_simple_format`, which the source
actually implements. -/
def claimed_dialect (data : List ℕ) : Option Bool :=
  match rdU32 data 0, rdU32 data 8, rdU32 data 20 with
  | .ok (sto, _), .ok (v08, _), .ok (v14, _) =>
    if 1 < v08 ∧ v14 = 0 then some true
    else
      let firstEntry :=
        match findNull data (sto + 4) with
        | some e => byteSlice data (sto + 4) e
        | none => []
      if containsBytes [32, 58, 32] firstEntry then some false
      else some (decide (1 < v08))
  | _, _, _ => none


/-! ### Helper lemmas -/

/-- Destructor for a successful `Except` bind. -/
theorem exceptBind_ok {α β : Type} {x : Except Err α} {f : α → Except Err β}
    {c : β} (h : x >>= f = .ok c) : ∃ a, x = .ok a ∧ f a = .ok c := by
  cases x with
  | ok a => exact ⟨a, rfl, h⟩
  | error e => exact absurd h (by simp [Bind.bind, Except.bind])

/-- Concatenation of adjacent unit-step ranges. -/
theorem range'_add_eq (s m k : ℕ) :
    List.range' s m ++ List.range' (s + m) k = List.range' s (m + k) := by
  induction m generalizing s with
  | zero => simp
  | succ m ihm =>
    have h1 : List.range' s (m + 1) = s :: List.range' (s + 1) m := rfl
    have h2 : List.range' s (m + 1 + k) = s :: List.range' (s + 1) (m + k) := by
      rw [show m + 1 + k = (m + k) + 1 by omega]
      rfl
    rw [h1, h2]
    have := ihm (s + 1)
    simp only [List.cons_append]
    rw [show s + (m + 1) = s + 1 + m by omega, this]

/-- The ref-id bookkeeping invariant: a successful parse starting from
counter `c` emits exactly the ref-ids `c+1, c+2, …` in document order
and leaves the counter at `c` plus the number of objects visited. -/
def RefSpec (st : PSt) (r : Except Err (List Line × List ℕ × PSt)) : Prop :=
  ∀ lines refids st', r = .ok (lines, refids, st') →
    refids = List.range' (st.ctr + 1) refids.length ∧
    st'.ctr = st.ctr + refids.length

/-- `RefSpec` holds for every object-dialect parse function, by mutual
induction over the recursion fuel. -/
theorem refids_spec (fuel : ℕ) :
    ∀ (env : BinaryInfParser.Env) (st : PSt) (ind : ℕ),
    RefSpec st (BinaryInfParser.parse_child_object fuel env st ind) ∧
    RefSpec st (BinaryInfParser.parse_section fuel env st ind) ∧
    (∀ name, RefSpec st (BinaryInfParser.parse_section_container fuel env st ind name)) ∧
    (∀ name pc, RefSpec st (BinaryInfParser.parse_section_inline fuel env st ind name pc)) ∧
    (∀ n, RefSpec st (BinaryInfParser.parse_objects_loop fuel env n st ind)) ∧
    (∀ n, RefSpec st (BinaryInfParser.parse_sections_loop fuel env n st ind)) := by
  induction fuel with
  | zero =>
    intro env st ind
    refine ⟨?_, ?_, ?_, ?_, ?_, ?_⟩
    · intro lines refids st' h
      exact absurd h (by simp [BinaryInfParser.parse_child_object])
    · intro lines refids st' h
      exact absurd h (by simp [BinaryInfParser.parse_section])
    · intro name lines refids st' h
      exact absurd h (by simp [BinaryInfParser.parse_section_container])
    · intro name pc lines refids st' h
      exact absurd h (by simp [BinaryInfParser.parse_section_inline])
    · intro n lines refids st' h
      match n with
      | 0 =>
        simp only [BinaryInfParser.parse_objects_loop, Except.ok.injEq,
          Prod.mk.injEq] at h
        obtain ⟨-, hr, hs⟩ := h
        subst hr hs
        simp
      | n + 1 =>
        exact absurd h (by simp [BinaryInfParser.parse_objects_loop])
    · intro n lines refids st' h
      match n with
      | 0 =>
        simp only [BinaryInfParser.parse_sections_loop, Except.ok.injEq,
          Prod.mk.injEq] at h
        obtain ⟨-, hr, hs⟩ := h
        subst hr hs
        simp
      | n + 1 =>
        exact absurd h (by simp [BinaryInfParser.parse_sections_loop])
  | succ f ih =>
    intro env st ind
    refine ⟨?_, ?_, ?_, ?_, ?_, ?_⟩
    · -- parse_child_object
      intro lines refids st' h
      simp only [BinaryInfParser.parse_child_object] at h
      obtain ⟨⟨class_idx, p1⟩, h1, h⟩ := exceptBind_ok h
      obtain ⟨⟨prop_count, p2⟩, h2, h⟩ := exceptBind_ok h
      obtain ⟨⟨child_count, p3⟩, h3, h⟩ := exceptBind_ok h
      obtain ⟨⟨propLs, p4⟩, h4, h⟩ := exceptBind_ok h
      obtain ⟨⟨secLs, refids0, st0⟩, h5, h⟩ := exceptBind_ok h
      simp only [Except.ok.injEq, Prod.mk.injEq] at h
      obtain ⟨-, hr, hs⟩ := h
      subst hr hs
      obtain ⟨hsp1, hsp2⟩ := (ih env ⟨p4, st.ctr + 1⟩ (ind + 1)).2.2.2.2.2 child_count
        secLs refids0 st0 h5
      dsimp only at hsp1 hsp2
      refine ⟨?_, by simp only [List.length_cons]; omega⟩
      have hcons : List.range' (st.ctr + 1) (refids0.length + 1) =
          (st.ctr + 1) :: List.range' (st.ctr + 2) refids0.length := rfl
      simp only [List.length_cons, hcons]
      exact congrArg (fun l => (st.ctr + 1) :: l) hsp1
    · -- parse_section
      intro lines refids st' h
      simp only [BinaryInfParser.parse_section] at h
      obtain ⟨⟨name_idx, p1⟩, h1, h⟩ := exceptBind_ok h
      obtain ⟨⟨second_field, p2⟩, h2, h⟩ := exceptBind_ok h
      split at h
      · have := (ih env ⟨p2, st.ctr⟩ ind).2.2.1
          (BinaryInfParser.get_str env.strings name_idx) lines refids st' h
        dsimp only at this
        exact this
      · have := (ih env ⟨p2, st.ctr⟩ ind).2.2.2.1
          (BinaryInfParser.get_str env.strings name_idx) second_field lines refids st' h
        dsimp only at this
        exact this
    · -- parse_section_container
      intro name lines refids st' h
      simp only [BinaryInfParser.parse_section_container] at h
      obtain ⟨⟨obj_count, p1⟩, h1, h⟩ := exceptBind_ok h
      obtain ⟨⟨objLs, refids0, st0⟩, h2, h⟩ := exceptBind_ok h
      simp only [Except.ok.injEq, Prod.mk.injEq] at h
      obtain ⟨-, hr, hs⟩ := h
      subst hr hs
      have hspec := (ih env ⟨p1, st.ctr⟩ (ind + 1)).2.2.2.2.1 obj_count
        objLs refids0 st0 h2
      dsimp only at hspec
      exact hspec
    · -- parse_section_inline
      intro name pc lines refids st' h
      simp only [BinaryInfParser.parse_section_inline] at h
      obtain ⟨⟨child_count, p1⟩, h1, h⟩ := exceptBind_ok h
      obtain ⟨⟨propLs, p2⟩, h2, h⟩ := exceptBind_ok h
      obtain ⟨⟨secLs, refids0, st0⟩, h3, h⟩ := exceptBind_ok h
      simp only [Except.ok.injEq, Prod.mk.injEq] at h
      obtain ⟨-, hr, hs⟩ := h
      subst hr hs
      have hspec := (ih env ⟨p2, st.ctr⟩ (ind + 1)).2.2.2.2.2 child_count
        secLs refids0 st0 h3
      dsimp only at hspec
      exact hspec
    · -- parse_objects_loop
      intro n lines refids st' h
      match n with
      | 0 =>
        simp only [BinaryInfParser.parse_objects_loop, Except.ok.injEq,
          Prod.mk.injEq] at h
        obtain ⟨-, hr, hs⟩ := h
        subst hr hs
        simp
      | n + 1 =>
        simp only [BinaryInfParser.parse_objects_loop] at h
        obtain ⟨⟨ls1, rs1, st1⟩, h1, h⟩ := exceptBind_ok h
        obtain ⟨⟨ls2, rs2, st2⟩, h2, h⟩ := exceptBind_ok h
        simp only [Except.ok.injEq, Prod.mk.injEq] at h
        obtain ⟨-, hr, hs⟩ := h
        subst hr hs
        obtain ⟨e1, c1⟩ := (ih env st ind).1 ls1 rs1 st1 h1
        obtain ⟨e2, c2⟩ := (ih env st1 ind).2.2.2.2.1 n ls2 rs2 st2 h2
        have hlen : (rs1 ++ rs2).length = rs1.length + rs2.length :=
          List.length_append rs1 rs2
        refine ⟨?_, by omega⟩
        have e2' : rs2 = List.range' (st.ctr + 1 + rs1.length) rs2.length := by
          conv_lhs => rw [e2]
          congr 1
          omega
        conv_lhs => rw [e1, e2']
        rw [range'_add_eq, hlen]
    · -- parse_sections_loop
      intro n lines refids st' h
      match n with
      | 0 =>
        simp only [BinaryInfParser.parse_sections_loop, Except.ok.injEq,
          Prod.mk.injEq] at h
        obtain ⟨-, hr, hs⟩ := h
        subst hr hs
        simp
      | n + 1 =>
        simp only [BinaryInfParser.parse_sections_loop] at h
        obtain ⟨⟨ls1, rs1, st1⟩, h1, h⟩ := exceptBind_ok h
        obtain ⟨⟨ls2, rs2, st2⟩, h2, h⟩ := exceptBind_ok h
        simp only [Except.ok.injEq, Prod.mk.injEq] at h
        obtain ⟨-, hr, hs⟩ := h
        subst hr hs
        obtain ⟨e1, c1⟩ := (ih env st ind).2.1 ls1 rs1 st1 h1
        obtain ⟨e2, c2⟩ := (ih env st1 ind).2.2.2.2.2 n ls2 rs2 st2 h2
        have hlen : (rs1 ++ rs2).length = rs1.length + rs2.length :=
          List.length_append rs1 rs2
        refine ⟨?_, by omega⟩
        have e2' : rs2 = List.range' (st.ctr + 1 + rs1.length) rs2.length := by
          conv_lhs => rw [e2]
          congr 1
          omega
        conv_lhs => rw [e1, e2']
        rw [range'_add_eq, hlen]

/-- Reducing a bind whose first argument is `ok`. -/
theorem ok_bind {α β : Type} (a : α) (f : α → Except Err β) :
    (Except.ok a >>= f) = f a := rfl

/-- Reducing a bind whose first argument is `error`. -/
theorem error_bind {α β : Type} (e : Err) (f : α → Except Err β) :
    ((Except.error e : Except Err α) >>= f) = .error e := rfl

/-- `propLines` drops a raw line. -/
theorem propLines_raw_cons (s : String) (L : List Line) :
    propLines (.raw s :: L) = propLines L := rfl

/-- `propLines` keeps a property line. -/
theorem propLines_prop_cons (i : ℕ) (n : String) (v : List Rendered)
    (L : List Line) :
    propLines (.prop i n v :: L) = .prop i n v :: propLines L := rfl

/-! ### Claim C2 -/

/-- C2: in the object dialect, a decode whose ref-id counter starts at 0
synthesizes the ref-ids `1, 2, …, N` in document order (root first,
depth-first, children in binary order), where `N` is the number of
object nodes visited (the root and the child objects — the nodes the
decoder allocates ref-ids for); they are strictly increasing, pairwise
distinct, and the final counter equals `N`. -/
theorem C2_refid_monotonic (fuel : ℕ) (env : BinaryInfParser.Env)
    (pos ind : ℕ) (lines : List Line) (refids : List ℕ) (st' : PSt)
    (h : BinaryInfParser.parse_root_object fuel env ⟨pos, 0⟩ ind =
      .ok (lines, refids, st')) :
    refids = List.range' 1 refids.length ∧ st'.ctr = refids.length ∧
    List.Pairwise (· < ·) refids ∧ refids.Nodup := by
  unfold BinaryInfParser.parse_root_object at h
  obtain ⟨⟨prop_count, p1⟩, h1, h⟩ := exceptBind_ok h
  obtain ⟨⟨child_count, p2⟩, h2, h⟩ := exceptBind_ok h
  obtain ⟨⟨propLs, p3⟩, h3, h⟩ := exceptBind_ok h
  obtain ⟨⟨secLs, refids0, st0⟩, h4, h⟩ := exceptBind_ok h
  simp only [Except.ok.injEq, Prod.mk.injEq] at h
  obtain ⟨-, hr, hs⟩ := h
  subst hr hs
  obtain ⟨e0, c0⟩ := (refids_spec fuel env ⟨p3, 1⟩ (ind + 1)).2.2.2.2.2 child_count
    secLs refids0 st0 h4
  dsimp only at e0 c0
  have hre : (1 :: refids0 : List ℕ) = List.range' 1 (1 :: refids0).length := by
    have hcons : List.range' 1 (refids0.length + 1) =
        1 :: List.range' 2 refids0.length := rfl
    simp only [List.length_cons, hcons]
    exact congrArg (fun l => 1 :: l) e0
  refine ⟨hre, by simp only [List.length_cons]; omega, ?_, ?_⟩
  · rw [hre]
    exact List.pairwise_lt_range' _ _
  · rw [hre]
    exact List.nodup_range' _ _

/-- Input for the C2 witness: a root object with one container section
holding two child objects. -/
def envC2w : BinaryInfParser.Env :=
  ⟨List.replicate 16 0 ++ [0,0,0,0, 1,0,0,0, 1,0,0,0, 0,0,0,0, 2,0,0,0,
    2,0,0,0, 0,0,0,0, 0,0,0,0, 3,0,0,0, 0,0,0,0, 0,0,0,0],
   ["Root", "Sect", "A", "B"], []⟩

/-- Output lines of the C2 witness decode. -/
def linesC2w : List Line :=
  [.raw "[Root]", .raw "\x7b", .prop 0 "_RefID" [.intForm 1], .raw "",
   .raw "\t[Sect]", .raw "\t\x7b", .raw "",
   .raw "\t\t[A]", .raw "\t\t\x7b", .prop 2 "_RefID" [.intForm 2], .raw "\t\t\x7d",
   .raw "\t\t[B]", .raw "\t\t\x7b", .prop 2 "_RefID" [.intForm 3], .raw "\t\t\x7d",
   .raw "\t\x7d", .raw "\x7d"]

/-- Witness for C2: the three-object document yields ref-ids `[1, 2, 3]`
(root 1, then the two children of the container section in binary
order). -/
theorem C2_refid_monotonic_witness :
    ([1, 2, 3] : List ℕ) = List.range' 1 ([1, 2, 3] : List ℕ).length ∧
    (PSt.mk 60 3).ctr = ([1, 2, 3] : List ℕ).length ∧
    List.Pairwise (· < ·) ([1, 2, 3] : List ℕ) ∧
    ([1, 2, 3] : List ℕ).Nodup :=
  C2_refid_monotonic 10 envC2w 16 0 linesC2w [1, 2, 3] ⟨60, 3⟩ (by decide)

/-! ### Claim C1 -/

/-- C1 (amended): in the object dialect, the root object and every
ChildObject emit the synthesized `_RefID = ctr+1` line as their first
property line (before any property decoded from the stream), and a
binary property named `_RefID` is fully consumed — the cursor advances
past its payload exactly as for any other property — but omitted from
the emitted properties.  InlineObject sections, however, receive no
synthesized `_RefID` line (see the counterexample). -/
theorem C1_refid_amended :
    (∀ fuel env st ind lines refids st',
        BinaryInfParser.parse_root_object fuel env st ind = .ok (lines, refids, st') →
        (propLines lines).head? =
          some (.prop ind "_RefID" [.intForm (st.ctr + 1 : ℕ)])) ∧
    (∀ fuel env st ind lines refids st',
        BinaryInfParser.parse_child_object fuel env st ind = .ok (lines, refids, st') →
        (propLines lines).head? =
          some (.prop ind "_RefID" [.intForm (st.ctr + 1 : ℕ)])) ∧
    (∀ env pos name_idx p1 count p2 vals p3,
        rdU32 env.data pos = .ok (name_idx, p1) →
        rdU8 env.data p1 = .ok (count, p2) →
        BinaryInfParser.parse_values env count p2 = .ok (vals, p3) →
        BinaryInfParser.parse_property env pos =
          .ok ((if BinaryInfParser.get_str env.strings name_idx = "_RefID" then none
                else some (BinaryInfParser.get_str env.strings name_idx, vals)), p3)) := by
  refine ⟨?_, ?_, ?_⟩
  · intro fuel env st ind lines refids st' h
    unfold BinaryInfParser.parse_root_object at h
    obtain ⟨⟨prop_count, p1⟩, h1, h⟩ := exceptBind_ok h
    obtain ⟨⟨child_count, p2⟩, h2, h⟩ := exceptBind_ok h
    obtain ⟨⟨propLs, p3⟩, h3, h⟩ := exceptBind_ok h
    obtain ⟨⟨secLs, refids0, st0⟩, h4, h⟩ := exceptBind_ok h
    simp only [Except.ok.injEq, Prod.mk.injEq] at h
    obtain ⟨hl, -, -⟩ := h
    subst hl
    simp only [List.cons_append, List.nil_append, propLines_raw_cons,
      propLines_prop_cons, List.head?_cons]
  · intro fuel env st ind lines refids st' h
    match fuel with
    | 0 => exact absurd h (by simp [BinaryInfParser.parse_child_object])
    | f + 1 =>
      simp only [BinaryInfParser.parse_child_object] at h
      obtain ⟨⟨class_idx, p1⟩, h1, h⟩ := exceptBind_ok h
      obtain ⟨⟨prop_count, p2⟩, h2, h⟩ := exceptBind_ok h
      obtain ⟨⟨child_count, p3⟩, h3, h⟩ := exceptBind_ok h
      obtain ⟨⟨propLs, p4⟩, h4, h⟩ := exceptBind_ok h
      obtain ⟨⟨secLs, refids0, st0⟩, h5, h⟩ := exceptBind_ok h
      simp only [Except.ok.injEq, Prod.mk.injEq] at h
      obtain ⟨hl, -, -⟩ := h
      subst hl
      simp only [List.cons_append, List.nil_append, propLines_raw_cons,
        propLines_prop_cons, List.head?_cons]
  · intro env pos name_idx p1 count p2 vals p3 h1 h2 h3
    unfold BinaryInfParser.parse_property
    rw [h1]
    dsimp only [ok_bind]
    rw [h2]
    dsimp only [ok_bind]
    rw [h3]
    dsimp only [ok_bind]
    by_cases hc : BinaryInfParser.get_str env.strings name_idx = "_RefID" <;>
      simp [hc]

/-- Witness for C1: a root object, a child object starting with counter
7 (ref-id 8), and a consumed-but-omitted `_RefID` stream property. -/
theorem C1_refid_amended_witness :
    (propLines linesC2w).head? = some (.prop 0 "_RefID" [.intForm (0 + 1 : ℕ)]) ∧
    (propLines [.raw "[A]", .raw "\x7b", .prop 0 "_RefID" [.intForm 8], .raw "\x7d"]).head? =
      some (.prop 0 "_RefID" [.intForm (7 + 1 : ℕ)]) ∧
    BinaryInfParser.parse_property ⟨[0, 0, 0, 0, 0], ["_RefID"], []⟩ 0 =
      .ok ((if BinaryInfParser.get_str ["_RefID"] 0 = "_RefID" then none
            else some (BinaryInfParser.get_str ["_RefID"] 0, [])), 5) :=
  ⟨C1_refid_amended.1 10 envC2w ⟨16, 0⟩ 0 linesC2w [1, 2, 3] ⟨60, 3⟩ (by decide),
   C1_refid_amended.2.1 5 ⟨[2, 0, 0, 0, 0, 0, 0, 0, 0, 0, 0, 0], ["x", "y", "A"], []⟩
     ⟨0, 7⟩ 0 [.raw "[A]", .raw "\x7b", .prop 0 "_RefID" [.intForm 8], .raw "\x7d"]
     [8] ⟨12, 8⟩ (by decide),
   C1_refid_amended.2.2 ⟨[0, 0, 0, 0, 0], ["_RefID"], []⟩ 0 0 4 0 5 [] 5 rfl rfl rfl⟩

/-- Input for the C1 counterexample: a root whose single child section
is an InlineObject section (discriminator 1) holding one ordinary
property named `p`. -/
def envC1x : BinaryInfParser.Env :=
  ⟨List.replicate 16 0 ++ [0,0,0,0, 1,0,0,0, 1,0,0,0, 1,0,0,0, 0,0,0,0, 2,0,0,0, 0],
   ["Root", "ToolTip : cPrismToolTip", "p"], []⟩

/-- Output lines of the C1 counterexample decode. -/
def linesC1x : List Line :=
  [.raw "[Root]", .raw "\x7b", .prop 0 "_RefID" [.intForm 1], .raw "",
   .raw "\t[ToolTip : cPrismToolTip]", .raw "\t\x7b", .raw "",
   .prop 1 "p" [], .raw "\t\x7d", .raw "\x7d"]

/-- Counterexample to C1 as stated: the InlineObject section
`[ToolTip : cPrismToolTip]` is decoded as an object, yet its first (and
only) property line is `p = ` — no `_RefID` line is synthesized for it,
and the only `_RefID` property line in the whole document belongs to
the root.  The claim that *every* decoded object including every
InlineObject section emits `_RefID = <n>` as its first property line is
therefore false. -/
theorem C1_counterexample :
    BinaryInfParser.parse_root_object 10 envC1x ⟨16, 0⟩ 0 =
      .ok (linesC1x, [1], ⟨41, 1⟩) ∧
    propLines linesC1x = [.prop 0 "_RefID" [.intForm 1], .prop 1 "p" []] ∧
    (∀ l ∈ propLines linesC1x, l ≠ .prop 1 "_RefID" [.intForm 2]) := by
  refine ⟨by decide, by decide, by decide⟩

/-! ### Claim C9 -/

/-- C9: the shape of a section is determined solely by the u32
discriminator read right after its name index: discriminator 0 selects
the Container branch, any nonzero discriminator selects the
InlineObject branch with the discriminator reinterpreted as the
property count.  The equation holds for every choice of string tables
`strs`/`wstrs`, so the resolved name's text content (in particular
whether it embeds `" : "`) plays no role in the branch — it is carried
along for display only. -/
theorem C9_discriminator (f : ℕ) (data : List ℕ) (strs wstrs : List String)
    (st : PSt) (ind name_idx p1 second_field p2 : ℕ)
    (h1 : rdU32 data st.pos = .ok (name_idx, p1))
    (h2 : rdU32 data p1 = .ok (second_field, p2)) :
    BinaryInfParser.parse_section (f + 1) ⟨data, strs, wstrs⟩ st ind =
      (if second_field = 0 then
        BinaryInfParser.parse_section_container f ⟨data, strs, wstrs⟩
          ⟨p2, st.ctr⟩ ind (BinaryInfParser.get_str strs name_idx)
      else
        BinaryInfParser.parse_section_inline f ⟨data, strs, wstrs⟩
          ⟨p2, st.ctr⟩ ind (BinaryInfParser.get_str strs name_idx) second_field) := by
  simp only [BinaryInfParser.parse_section]
  rw [h1]
  dsimp only [ok_bind]
  rw [h2]
  dsimp only [ok_bind]

/-- Witness for C9: a section whose resolved name is `"Tool : cT"` —
text that embeds `" : "` — but whose discriminator is 1 is decoded
through the inline-object branch, not by any inspection of the name. -/
theorem C9_discriminator_witness :
    BinaryInfParser.parse_section 6
      ⟨[1,0,0,0, 1,0,0,0, 0,0,0,0, 2,0,0,0, 0], ["x", "Tool : cT", "p"], []⟩
      ⟨0, 0⟩ 0 =
    BinaryInfParser.parse_section_inline 5
      ⟨[1,0,0,0, 1,0,0,0, 0,0,0,0, 2,0,0,0, 0], ["x", "Tool : cT", "p"], []⟩
      ⟨8, 0⟩ 0 "Tool : cT" 1 := by
  rw [C9_discriminator 5 [1,0,0,0, 1,0,0,0, 0,0,0,0, 2,0,0,0, 0]
    ["x", "Tool : cT", "p"] [] ⟨0, 0⟩ 0 1 4 1 8 rfl rfl]
  decide

/-! ### Claim C3 -/

/-- C3 (amended): in the object dialect an unrecognized property-value
type tag is a hard parse failure — `parse_values` aborts with an error
carrying the byte offset of the offending tag byte, and the error
propagates through `parse_property` (and, by the `Except` monad,
through the rest of the decode, so no partial tree is returned).  The
simple dialect, by contrast, silently skips unrecognized tags (see the
counterexample and claim C10). -/
theorem C3_unknown_tag_amended :
    (∀ (env : BinaryInfParser.Env) (n pos t p1 : ℕ),
        rdU8 env.data pos = .ok (t, p1) → 4 ≤ t →
        BinaryInfParser.parse_values env (n + 1) pos =
          .error (.unknownType t pos)) ∧
    (∀ (env : BinaryInfParser.Env) (pos name_idx p1 count p2 : ℕ) (e : Err),
        rdU32 env.data pos = .ok (name_idx, p1) →
        rdU8 env.data p1 = .ok (count, p2) →
        BinaryInfParser.parse_values env count p2 = .error e →
        BinaryInfParser.parse_property env pos = .error e) := by
  constructor
  · intro env n pos t p1 h ht
    simp only [BinaryInfParser.parse_values]
    rw [h]
    dsimp only [ok_bind]
    rw [if_neg (by omega), if_neg (by omega), if_neg (by omega),
      if_neg (by omega)]
  · intro env pos name_idx p1 count p2 e h1 h2 h3
    unfold BinaryInfParser.parse_property
    rw [h1]
    dsimp only [ok_bind]
    rw [h2]
    dsimp only [ok_bind]
    rw [h3]
    dsimp only [error_bind]

/-- Witness for C3 (amended): type tag 4 at offset 0 aborts the value
loop with that offset, and a property containing tag 4 at offset 5
aborts `parse_property` with the same error. -/
theorem C3_unknown_tag_amended_witness :
    BinaryInfParser.parse_values ⟨[4], [], []⟩ 1 0 =
      .error (.unknownType 4 0) ∧
    BinaryInfParser.parse_property ⟨[0, 0, 0, 0, 1, 4], ["q"], []⟩ 0 =
      .error (.unknownType 4 5) :=
  ⟨C3_unknown_tag_amended.1 ⟨[4], [], []⟩ 0 0 4 1 rfl (by omega),
   C3_unknown_tag_amended.2 ⟨[0, 0, 0, 0, 1, 4], ["q"], []⟩ 0 0 4 1 5
     (.unknownType 4 5) rfl rfl rfl⟩

/-- Input for the C3 counterexample: a one-section simple-dialect body
whose single property carries one value with type tag 4 (at byte
offset 29). -/
def dataC3x : List ℕ :=
  [0,0,0,0, 0,0,0,0, 1,0,0,0, 0,0,0,0, 1,0,0,0, 0,0,0,0, 0,0,0,0, 1, 4]

/-- Counterexample to C3 as stated: the claim asserts that in *either*
dialect an unrecognized type tag aborts the whole decode.  In the
simple dialect a property value with type tag 4 (here at offset 29) is
silently skipped: the decode returns a complete document with the
value list empty, and no error of any kind is raised. -/
theorem C3_counterexample :
    dataC3x.get? 29 = some 4 ∧
    SimpleInfParser.parse_doc ["nm"] dataC3x = .ok [("nm", [("nm", [])])] :=
  ⟨rfl, by decide⟩

/-! ### Claim C10 -/

/-- C10: in the simple dialect a property value whose type tag is
neither 0 nor 1 is silently skipped: the per-value step returns no
value and leaves the cursor exactly where it was after the tag byte,
a single-value property yields an empty value list, and with further
values pending the loop continues directly at the next per-value type
tag — no error is raised and no payload bytes are consumed. -/
theorem C10_skip_unknown (strings : List String) (data : List ℕ) (t pos : ℕ)
    (ht0 : t ≠ 0) (ht1 : t ≠ 1) :
    SimpleInfParser.parse_one_value strings data t pos = .ok (none, pos) ∧
    SimpleInfParser.parse_vals_loop strings data 1 t pos = .ok ([], pos) ∧
    (∀ n vt2 p2, rdU8 data pos = .ok (vt2, p2) →
        SimpleInfParser.parse_vals_loop strings data (n + 2) t pos =
          SimpleInfParser.parse_vals_loop strings data (n + 1) vt2 p2) := by
  have hone : SimpleInfParser.parse_one_value strings data t pos =
      .ok (none, pos) := by
    unfold SimpleInfParser.parse_one_value
    rw [if_neg ht0, if_neg ht1]
  refine ⟨hone, ?_, ?_⟩
  · simp only [SimpleInfParser.parse_vals_loop]
    rw [hone]
    dsimp only [ok_bind]
    rfl
  · intro n vt2 p2 hrd
    simp only [SimpleInfParser.parse_vals_loop]
    rw [hone]
    dsimp only [ok_bind]
    rw [hrd]
    dsimp only [ok_bind]
    cases hx : SimpleInfParser.parse_vals_loop strings data (n + 1) vt2 p2 with
    | ok r =>
      cases r
      rfl
    | error e =>
      rfl

/-- Witness for C10: tag 4 is skipped — the step consumes nothing,
a one-value property yields `[]`, and a two-value property continues
at the next tag byte. -/
theorem C10_skip_unknown_witness :
    SimpleInfParser.parse_one_value ["a"] [0, 0, 0, 0] 4 0 = .ok (none, 0) ∧
    SimpleInfParser.parse_vals_loop ["a"] [0, 0, 0, 0] 1 4 0 = .ok ([], 0) ∧
    SimpleInfParser.parse_vals_loop ["a"] [1, 0, 0, 0, 0] 2 4 0 =
      SimpleInfParser.parse_vals_loop ["a"] [1, 0, 0, 0, 0] 1 1 1 :=
  ⟨(C10_skip_unknown ["a"] [0, 0, 0, 0] 4 0 (by decide) (by decide)).1,
   (C10_skip_unknown ["a"] [0, 0, 0, 0] 4 0 (by decide) (by decide)).2.1,
   (C10_skip_unknown ["a"] [1, 0, 0, 0, 0] 4 0 (by decide) (by decide)).2.2
     0 1 1 rfl⟩

/-! ### Claim C4 -/

/-- A failing u32 read always reports truncation at the read
position. -/
theorem rdU32_error {data : List ℕ} {pos : ℕ} {e : Err}
    (h : rdU32 data pos = .error e) : e = .truncated pos := by
  unfold rdU32 at h
  split at h
  · simp at h
  · simp only [Except.error.injEq] at h
    exact h.symm

/-- C4 (amended): the object-dialect loader
`BinaryInfParser._load_string_tables` raises `InvalidOffset` carrying
the offending value `r` exactly when `r` is the offset `S` read from
buffer start and `S < 16` or `S ≥ len(data)`; for `S` in range it never
fails with `InvalidOffset` (only a truncated read at `S` near the
buffer end can fail it, with a different error).  The simple-dialect
loader `SimpleInfParser._load_strings`, by contrast, performs no offset
validation at all and can never raise `InvalidOffset` (see the
counterexample). -/
theorem C4_invalid_offset_amended :
    (∀ (data : List ℕ) (sto p r : ℕ),
        rdU32 data 0 = .ok (sto, p) →
        (BinaryInfParser.load_string_tables data = .error (.invalidOffset r) ↔
          (r = sto ∧ (sto < 16 ∨ data.length ≤ sto)))) ∧
    (∀ (data : List ℕ) (r : ℕ),
        SimpleInfParser.load_strings data ≠ .error (.invalidOffset r)) := by
  constructor
  · intro data sto p r h
    unfold BinaryInfParser.load_string_tables
    rw [h]
    dsimp only [ok_bind]
    by_cases hc : sto < 16 ∨ data.length ≤ sto
    · rw [if_pos hc]
      simp only [Except.error.injEq, Err.invalidOffset.injEq]
      constructor
      · intro he
        exact ⟨he.symm, hc⟩
      · rintro ⟨rfl, -⟩
        rfl
    · rw [if_neg hc]
      constructor
      · intro he
        exfalso
        cases hsc : rdU32 data sto with
        | error e =>
          rw [hsc] at he
          dsimp only [error_bind] at he
          have := rdU32_error hsc
          simp [this] at he
        | ok scp =>
          obtain ⟨sc, p1⟩ := scp
          rw [hsc] at he
          dsimp only [ok_bind] at he
          cases hrsl : read_strings_loop data sc p1 with
          | mk strs p2 =>
            rw [hrsl] at he
            dsimp only at he
            by_cases hlen : p2 + 8 ≤ data.length
            · rw [if_pos hlen] at he
              cases hw : rdU32 data p2 with
              | error e =>
                rw [hw] at he
                dsimp only [error_bind] at he
                have := rdU32_error hw
                simp [this] at he
              | ok wc =>
                obtain ⟨wcount, p3⟩ := wc
                rw [hw] at he
                dsimp only [ok_bind] at he
                cases hwl : read_wstrings_loop data wcount p3 with
                | mk wstrs p4 =>
                  rw [hwl] at he
                  simp at he
            · rw [if_neg hlen] at he
              simp at he
      · rintro ⟨rfl, hcond⟩
        exact absurd hcond hc
  · intro data r
    unfold SimpleInfParser.load_strings
    cases h0 : rdU32 data 0 with
    | error e =>
      dsimp only [error_bind]
      have := rdU32_error h0
      simp [this]
    | ok sp =>
      obtain ⟨sto, p⟩ := sp
      dsimp only [ok_bind]
      cases h1 : rdU32 data sto with
      | error e =>
        dsimp only [error_bind]
        have := rdU32_error h1
        simp [this]
      | ok scp =>
        dsimp only [ok_bind]
        simp

/-- Witness for C4 (amended): offset 5 < 16 makes the object-dialect
loader fail with `InvalidOffset 5`, and the simple-dialect loader on an
all-zero buffer (offset 0 < 16) does not raise `InvalidOffset 0`. -/
theorem C4_invalid_offset_amended_witness :
    BinaryInfParser.load_string_tables ([5, 0, 0, 0] ++ List.replicate 20 0) =
      .error (.invalidOffset 5) ∧
    SimpleInfParser.load_strings (List.replicate 24 0) ≠
      .error (.invalidOffset 0) :=
  ⟨(C4_invalid_offset_amended.1 ([5, 0, 0, 0] ++ List.replicate 20 0) 5 4 5
      (by decide)).mpr ⟨rfl, by decide⟩,
   C4_invalid_offset_amended.2 (List.replicate 24 0) 0⟩

/-- Counterexample to C4 as stated: on an all-zero 24-byte buffer the
offset read from buffer start is `S = 0 < 16`, yet the simple-dialect
string-table loader succeeds (returning an empty table) instead of
failing with `InvalidOffset` — the claimed `if and only if` does not
hold for this loader, which the claim's sources include. -/
theorem C4_counterexample :
    rdU32 (List.replicate 24 0) 0 = .ok (0, 4) ∧ (0 : ℕ) < 16 ∧
    SimpleInfParser.load_strings (List.replicate 24 0) = .ok [] := by
  refine ⟨by decide, by decide, by decide⟩

/-! ### Claim C5 -/

/-- C5 (amended): the object-dialect formatter `fmt_double` renders a
value without a decimal point (as `str(int(v))`) exactly when the value
is integral *and* its magnitude is below `1e15`, and falls to Python's
default float rendering otherwise; the simple-dialect formatter,
however, has no magnitude guard — it renders every integral value
without a decimal point regardless of size (see the counterexample).
In both dialects `3.0` renders as `3` and `3.5` via the default float
rendering (`3.5`). -/
theorem C5_number_format_amended :
    (∀ v : ℚ,
        (BinaryInfParser.fmt_double v = .intForm v.num ↔
          v.den = 1 ∧ |v| < 10 ^ 15) ∧
        (¬(v.den = 1 ∧ |v| < 10 ^ 15) →
          BinaryInfParser.fmt_double v = .floatForm v)) ∧
    (∀ v : ℚ,
        (SimpleInfParser.fmt_num v = .intForm v.num ↔ v.den = 1) ∧
        (v.den ≠ 1 → SimpleInfParser.fmt_num v = .floatForm v)) ∧
    BinaryInfParser.fmt_double 3 = .intForm 3 ∧
    BinaryInfParser.fmt_double (7 / 2) = .floatForm (7 / 2) ∧
    SimpleInfParser.fmt_num 3 = .intForm 3 ∧
    SimpleInfParser.fmt_num (7 / 2) = .floatForm (7 / 2) := by
  refine ⟨?_, ?_, ?_, ?_, ?_, ?_⟩
  · intro v
    unfold BinaryInfParser.fmt_double
    by_cases hc : v.den = 1 ∧ |v| < 10 ^ 15
    · rw [if_pos hc]
      exact ⟨iff_of_true rfl hc, fun hn => absurd hc hn⟩
    · rw [if_neg hc]
      exact ⟨iff_of_false (by simp) hc, fun _ => rfl⟩
  · intro v
    unfold SimpleInfParser.fmt_num
    by_cases hc : v.den = 1
    · rw [if_pos hc]
      exact ⟨iff_of_true rfl hc, fun hn => absurd hc hn⟩
    · rw [if_neg hc]
      exact ⟨iff_of_false (by simp) hc, fun _ => rfl⟩
  · unfold BinaryInfParser.fmt_double
    rw [if_pos (by norm_num)]
    norm_num
  · unfold BinaryInfParser.fmt_double
    rw [if_neg (by norm_num)]
  · unfold SimpleInfParser.fmt_num
    rw [if_pos (by norm_num)]
    norm_num
  · unfold SimpleInfParser.fmt_num
    rw [if_neg (by norm_num)]

/-- Counterexample to C5 as stated: `1e20` is exactly representable as
a double, is integral, and its magnitude is at least `1e15`, so by the
claim both dialects must render it as the full decimal value rather
than as an integer.  The simple-dialect formatter nevertheless renders
it as the integer `100000000000000000000` (no decimal point), because
`SimpleInfParser.format_value` checks only `val == int(val)` with no
magnitude bound. -/
theorem C5_counterexample :
    SimpleInfParser.fmt_num (10 ^ 20) = .intForm (10 ^ 20) ∧
    ((10 ^ 20 : ℚ)).den = 1 ∧ ¬(|(10 ^ 20 : ℚ)| < 10 ^ 15) := by
  refine ⟨?_, by norm_num, by norm_num⟩
  unfold SimpleInfParser.fmt_num
  rw [if_pos (by norm_num)]
  norm_num

/-! ### Claim C6 -/

/-- `BinaryInfParser.needs_quotes` returns `True` on every input (the
chain of special-case checks all `return True` and the final fallthrough
is `return True` as well). -/
theorem needs_quotes_eq_true (s : String) :
    BinaryInfParser.needs_quotes s = true := by
  unfold BinaryInfParser.needs_quotes
  by_cases h1 : s = ""
  · rw [if_pos h1]
  · rw [if_neg h1]
    split <;> rfl

/-- C6 (amended): in the object dialect every string value is rendered
double-quoted with embedded double quotes backslash-escaped
(`needs_quotes` is identically true); in the simple dialect a string is
quoted exactly when it contains a space, slash, backslash or comma and
emitted bare otherwise — and in neither case does the simple dialect
escape embedded double quotes (see the counterexample). -/
theorem C6_quoting_amended :
    (∀ s, BinaryInfParser.needs_quotes s = true) ∧
    (∀ s, BinaryInfParser.fmt_string s = "\"" ++ escapeQuotes s ++ "\"") ∧
    (∀ s, SimpleInfParser.format_value (.s s) =
        some (.txt (if strContains s ' ' || strContains s '/' ||
                      strContains s '\\' || strContains s ','
                    then "\"" ++ s ++ "\"" else s))) := by
  refine ⟨needs_quotes_eq_true, ?_, ?_⟩
  · intro s
    unfold BinaryInfParser.fmt_string
    rw [if_pos (needs_quotes_eq_true s)]
  · intro s
    rfl

/-- Counterexample to C6 as stated: the value `a"b` contains no space,
slash, backslash or comma, so the simple dialect emits it bare — the
embedded double quote appears in the output with no backslash anywhere
(`strContains output '\\' = false`), contradicting the claim that both
dialects backslash-escape embedded quotes.  The object dialect does
escape it. -/
theorem C6_counterexample :
    SimpleInfParser.format_value (.s "a\"b") = some (.txt "a\"b") ∧
    strContains "a\"b" '"' = true ∧
    strContains "a\"b" '\\' = false ∧
    BinaryInfParser.fmt_string "a\"b" = "\"a\\\"b\"" := by
  refine ⟨by decide, by decide, by decide, by decide⟩

/-! ### Claim C7 -/

/-- C7: string-table, wide-string-table and simple-dialect lookups are
total functions — an in-range index returns exactly the stored entry,
and an out-of-range index returns the respective placeholder text
encoding the invalid index; no index value can make a lookup fail. -/
theorem C7_lookup_safety (tbl : List String) (idx : ℕ) :
    (∀ h : idx < tbl.length,
        BinaryInfParser.get_str tbl idx = tbl.get ⟨idx, h⟩ ∧
        BinaryInfParser.get_wstr tbl idx = tbl.get ⟨idx, h⟩ ∧
        SimpleInfParser.get_str tbl idx = tbl.get ⟨idx, h⟩) ∧
    (tbl.length ≤ idx →
        BinaryInfParser.get_str tbl idx = "<string_" ++ toString idx ++ ">" ∧
        BinaryInfParser.get_wstr tbl idx = "<wstring_" ++ toString idx ++ ">" ∧
        SimpleInfParser.get_str tbl idx = "<invalid:" ++ toString idx ++ ">") := by
  constructor
  · intro h
    refine ⟨?_, ?_, ?_⟩
    · unfold BinaryInfParser.get_str
      rw [dif_pos h]
    · unfold BinaryInfParser.get_wstr
      rw [dif_pos h]
    · unfold SimpleInfParser.get_str
      rw [dif_pos h]
  · intro h
    have h' : ¬ idx < tbl.length := by omega
    refine ⟨?_, ?_, ?_⟩
    · unfold BinaryInfParser.get_str
      rw [dif_neg h']
    · unfold BinaryInfParser.get_wstr
      rw [dif_neg h']
    · unfold SimpleInfParser.get_str
      rw [dif_neg h']

/-- Witness for C7: index 1 of a two-entry table resolves to the stored
entry in all three lookups, and index 7 yields the three placeholder
texts. -/
theorem C7_lookup_safety_witness :
    (BinaryInfParser.get_str ["alpha", "beta"] 1 =
        ["alpha", "beta"].get ⟨1, by decide⟩ ∧
      BinaryInfParser.get_wstr ["alpha", "beta"] 1 =
        ["alpha", "beta"].get ⟨1, by decide⟩ ∧
      SimpleInfParser.get_str ["alpha", "beta"] 1 =
        ["alpha", "beta"].get ⟨1, by decide⟩) ∧
    (BinaryInfParser.get_str ["alpha", "beta"] 7 =
        "<string_" ++ toString 7 ++ ">" ∧
      BinaryInfParser.get_wstr ["alpha", "beta"] 7 =
        "<wstring_" ++ toString 7 ++ ">" ∧
      SimpleInfParser.get_str ["alpha", "beta"] 7 =
        "<invalid:" ++ toString 7 ++ ">") :=
  ⟨(C7_lookup_safety ["alpha", "beta"] 1).1 (by decide),
   (C7_lookup_safety ["alpha", "beta"] 7).2 (by decide)⟩

/-! ### Claim C8 -/

/-- C8 (amended): dialect sub-classification is a pure function of the
buffer bytes following this decision order — a buffer shorter than 24
bytes or with an out-of-range table offset is object-dialect; else a
count field `> 1` at offset 8 with a zero at offset 20 is
simple-dialect; else (consulting the string table) an empty table or an
unterminated first string is object-dialect; else a first entry
containing `" : "` is object-dialect; else the dialect is simple
exactly when the count field exceeds 1.  (Reading the string count past
the buffer end raises instead of classifying.) -/
theorem C8_dialect_amended :
    (∀ data : List ℕ, data.length < 24 →
        is_simple_format data = some false) ∧
    (∀ (data : List ℕ) (sto p : ℕ), 24 ≤ data.length →
        rdU32 data 0 = .ok (sto, p) → sto < 16 ∨ data.length ≤ sto →
        is_simple_format data = some false) ∧
    (∀ (data : List ℕ) (sto p v08 p8 v14 p20 : ℕ), 24 ≤ data.length →
        rdU32 data 0 = .ok (sto, p) → ¬(sto < 16 ∨ data.length ≤ sto) →
        rdU32 data 8 = .ok (v08, p8) → rdU32 data 20 = .ok (v14, p20) →
        1 < v08 → v14 = 0 →
        is_simple_format data = some true) ∧
    (∀ (data : List ℕ) (sto p v08 p8 v14 p20 sc psc e : ℕ), 24 ≤ data.length →
        rdU32 data 0 = .ok (sto, p) → ¬(sto < 16 ∨ data.length ≤ sto) →
        rdU32 data 8 = .ok (v08, p8) → rdU32 data 20 = .ok (v14, p20) →
        ¬(1 < v08 ∧ v14 = 0) → rdU32 data sto = .ok (sc, psc) → sc ≠ 0 →
        findNull data (sto + 4) = some e →
        containsBytes [32, 58, 32] (byteSlice data (sto + 4) e) = true →
        is_simple_format data = some false) ∧
    (∀ (data : List ℕ) (sto p v08 p8 v14 p20 sc psc e : ℕ), 24 ≤ data.length →
        rdU32 data 0 = .ok (sto, p) → ¬(sto < 16 ∨ data.length ≤ sto) →
        rdU32 data 8 = .ok (v08, p8) → rdU32 data 20 = .ok (v14, p20) →
        ¬(1 < v08 ∧ v14 = 0) → rdU32 data sto = .ok (sc, psc) → sc ≠ 0 →
        findNull data (sto + 4) = some e →
        containsBytes [32, 58, 32] (byteSlice data (sto + 4) e) = false →
        is_simple_format data = some (decide (1 < v08))) := by
  refine ⟨?_, ?_, ?_, ?_, ?_⟩
  · intro data hlen
    unfold is_simple_format
    rw [if_pos hlen]
  · intro data sto p hlen h0 hsto
    unfold is_simple_format
    rw [if_neg (by omega), h0]
    dsimp only
    rw [if_pos hsto]
  · intro data sto p v08 p8 v14 p20 hlen h0 hsto h8 h20 hv08 hv14
    unfold is_simple_format
    rw [if_neg (by omega), h0]
    dsimp only
    rw [if_neg hsto, h8, h20]
    dsimp only
    rw [if_pos ⟨hv08, hv14⟩]
  · intro data sto p v08 p8 v14 p20 sc psc e hlen h0 hsto h8 h20 hv hsc hscne
      hfind hcont
    unfold is_simple_format
    rw [if_neg (by omega), h0]
    dsimp only
    rw [if_neg hsto, h8, h20]
    dsimp only
    rw [if_neg hv, hsc]
    dsimp only
    rw [if_neg hscne, hfind]
    dsimp only
    rw [if_pos hcont]
  · intro data sto p v08 p8 v14 p20 sc psc e hlen h0 hsto h8 h20 hv hsc hscne
      hfind hcont
    unfold is_simple_format
    rw [if_neg (by omega), h0]
    dsimp only
    rw [if_neg hsto, h8, h20]
    dsimp only
    rw [if_neg hv, hsc]
    dsimp only
    rw [if_neg hscne, hfind]
    dsimp only
    rw [if_neg (by simp [hcont])]

/-- Witness input: count field 2, zero at offset 20 — simple. -/
def ex8simple : List ℕ :=
  [16,0,0,0, 0,0,0,0, 2,0,0,0, 0,0,0,0, 0,0,0,0, 0,0,0,0]

/-- Witness input: first string-table entry is exactly `" : "`. -/
def ex8colon : List ℕ :=
  [16,0,0,0, 0,0,0,0, 1,0,0,0, 0,0,0,0, 1,0,0,0, 32,58,32,0]

/-- Witness input: first string-table entry is `"ab"`, count field 1. -/
def ex8plain : List ℕ :=
  [16,0,0,0, 0,0,0,0, 1,0,0,0, 0,0,0,0, 1,0,0,0, 97,98,0,0]

/-- Witness for C8 (amended): the three main clauses of the decision
chain at concrete buffers. -/
theorem C8_dialect_amended_witness :
    is_simple_format ex8simple = some true ∧
    is_simple_format ex8colon = some false ∧
    is_simple_format ex8plain = some (decide (1 < 1)) :=
  ⟨C8_dialect_amended.2.2.1 ex8simple 16 4 2 12 0 24 (by decide) rfl
      (by decide) rfl rfl (by decide) rfl,
   C8_dialect_amended.2.2.2.1 ex8colon 16 4 1 12 2112032 24 1 20 23
      (by decide) rfl (by decide) rfl rfl (by decide) rfl (by decide)
      rfl (by decide),
   C8_dialect_amended.2.2.2.2 ex8plain 16 4 1 12 25185 24 1 20 22
      (by decide) rfl (by decide) rfl rfl (by decide) rfl (by decide)
      rfl (by decide)⟩

/-- Counterexample input for C8: count field 2 at offset 8, nonzero
field at offset 20, valid table offset 16, but a string count of 0. -/
def ex8empty : List ℕ :=
  [16,0,0,0, 0,0,0,0, 2,0,0,0, 0,0,0,0, 0,0,0,0, 1,0,0,0]

/-- Counterexample to C8 as stated: on `ex8empty` the claimed decision
chain (first clause fails because offset 20 holds 1; no string-table
entry contains `" : "`; count field 2 exceeds 1) classifies the buffer
as simple-dialect, but `is_simple_format` returns object-dialect
because of an early `str_count == 0` guard the claim omits. -/
theorem C8_counterexample :
    is_simple_format ex8empty = some false ∧
    claimed_dialect ex8empty = some true :=
  ⟨by decide, by decide⟩
